import Mathlib

/-!
Verification of the path-addressing / search / structural-similarity core of
the `json-viewer` application (source: `src/App.tsx`).

The embedding models JavaScript strings as lists of characters (`Str`), JSON
values as the inductive `Json` (JS `null` is `Json.null`; a parsed document
that is absent is represented by `Json.null` exactly as the component state
holds `null`), JS objects (`Record<string, boolean>`) as association lists in
insertion order (`RecordB`), and `undefined` as `Option.none`. Numeric
payloads are `Int` (no claim depends on non-integral numbers). Prototype
properties of JS primitives are not modelled: property access on numbers and
booleans yields `undefined`, and on strings only character indexing and
`length` are modelled, which is the JS behaviour for all JSON-expressible
results.
-/

/-- JavaScript strings, modelled as lists of characters. -/
abbrev Str := List Char

/-- Models `String.prototype.toLowerCase`. -/
def jsToLower (s : Str) : Str := s.map Char.toLower

/-- Whitespace as recognised by `String.prototype.trim` (the common cases). -/
def isWS (c : Char) : Bool := c = ' ' || c = '\t' || c = '\n' || c = '\r'

/-- Models `String.prototype.trim`: strip leading and trailing whitespace. -/
def jsTrim (s : Str) : Str :=
  ((s.dropWhile isWS).reverse.dropWhile isWS).reverse

/-- Models `haystack.includes(needle)`: substring containment. -/
def jsIncludes : Str → Str → Bool
  | [], needle => needle.isEmpty
  | c :: rest, needle => needle.isPrefixOf (c :: rest) || jsIncludes rest needle

/-- The regular expression test `/^\d+$/.test(s)`: nonempty, all digits. -/
def isDigits (s : Str) : Bool := !s.isEmpty && s.all Char.isDigit

/-- Models `parseInt(s, 10)` restricted to all-digit strings (the only use site). -/
def strToNat (s : Str) : Nat := s.foldl (fun a c => 10 * a + (c.toNat - 48)) 0

/-- A single decimal digit character. -/
def digitChar : Nat → Char
  | 0 => '0' | 1 => '1' | 2 => '2' | 3 => '3' | 4 => '4'
  | 5 => '5' | 6 => '6' | 7 => '7' | 8 => '8' | 9 => '9'
  | _ => '*'

/-- Fuel-driven decimal rendering of a natural number (fuel keeps the
recursion structural so the kernel can evaluate it). -/
def natToStrAux : Nat → Nat → Str
  | 0, _ => []
  | fuel + 1, n =>
    if n < 10 then [digitChar n]
    else natToStrAux fuel (n / 10) ++ [digitChar (n % 10)]

/-- JavaScript `String(n)` / `n.toString()` for a natural number. -/
def natToStr (n : Nat) : Str := natToStrAux (n + 1) n

/-- Models `path.split('.')` — splits on every dot, keeping empty pieces, and yields
`[""]` on the empty string, exactly as in JavaScript. -/
def splitDot : Str → List Str
  | [] => [[]]
  | c :: rest =>
    if c = '.' then [] :: splitDot rest
    else
      match splitDot rest with
      | [] => [[c]]
      | p :: ps => (c :: p) :: ps

/-- Models `parts.join('.')`. -/
def joinDot : List Str → Str
  | [] => []
  | [p] => p
  | p :: ps => p ++ '.' :: joinDot ps

/-- The path-join idiom used throughout the source:
`path ? path + '.' + key : key` (empty strings are falsy in JS). -/
def jsJoinPath (path key : Str) : Str :=
  if path = [] then key else path ++ '.' :: key

/-- Models `Array.from(new Set(l))`: deduplicate keeping first occurrences. -/
def dedup (l : List Str) : List Str :=
  l.foldl (fun acc s => if s ∈ acc then acc else acc ++ [s]) []

/-- Parsed JSON values (the `Document`). JS `null` is `Json.null`; an object's
fields are kept in insertion order, matching `Object.entries`. -/
inductive Json where
  | null : Json
  | bool : Bool → Json
  | num : Int → Json
  | str : Str → Json
  | arr : List Json → Json
  | obj : List (Str × Json) → Json

mutual
/-- Structural Boolean equality on `Json` (used to derive decidable equality,
which Lean cannot derive automatically for this nested inductive). -/
def beqJson : Json → Json → Bool
  | Json.null, Json.null => true
  | Json.bool a, Json.bool b => a == b
  | Json.num a, Json.num b => a == b
  | Json.str a, Json.str b => a == b
  | Json.arr a, Json.arr b => beqJsonList a b
  | Json.obj a, Json.obj b => beqJsonFields a b
  | _, _ => false
termination_by structural v => v

/-- The relation `beqJson` lifted to lists. -/
def beqJsonList : List Json → List Json → Bool
  | [], [] => true
  | a :: as2, b :: bs => beqJson a b && beqJsonList as2 bs
  | _, _ => false
termination_by structural xs => xs

/-- The relation `beqJson` lifted to field lists. -/
def beqJsonFields : List (Str × Json) → List (Str × Json) → Bool
  | [], [] => true
  | (k1, v1) :: as2, (k2, v2) :: bs => k1 == k2 && beqJson v1 v2 && beqJsonFields as2 bs
  | _, _ => false
termination_by structural fs => fs
end

mutual
theorem beqJson_eq : ∀ a b : Json, beqJson a b = true → a = b
  | Json.null, Json.null, _ => rfl
  | Json.bool a, Json.bool b, h => by
    simp only [beqJson, beq_iff_eq] at h; rw [h]
  | Json.num a, Json.num b, h => by
    simp only [beqJson, beq_iff_eq] at h; rw [h]
  | Json.str a, Json.str b, h => by
    simp only [beqJson, beq_iff_eq] at h; rw [h]
  | Json.arr a, Json.arr b, h => by
    rw [beqJsonList_eq a b (by simpa [beqJson] using h)]
  | Json.obj a, Json.obj b, h => by
    rw [beqJsonFields_eq a b (by simpa [beqJson] using h)]
termination_by structural a => a

theorem beqJsonList_eq : ∀ a b : List Json, beqJsonList a b = true → a = b
  | [], [], _ => rfl
  | a :: as2, b :: bs, h => by
    simp only [beqJsonList, Bool.and_eq_true] at h
    rw [beqJson_eq a b h.1, beqJsonList_eq as2 bs h.2]
termination_by structural a => a

theorem beqJsonFields_eq : ∀ a b : List (Str × Json), beqJsonFields a b = true → a = b
  | [], [], _ => rfl
  | (k1, v1) :: as2, (k2, v2) :: bs, h => by
    simp only [beqJsonFields, Bool.and_eq_true, beq_iff_eq] at h
    rw [h.1.1, beqJson_eq v1 v2 h.1.2, beqJsonFields_eq as2 bs h.2]
termination_by structural a => a
end

mutual
theorem beqJson_refl : ∀ a : Json, beqJson a a = true
  | Json.null => rfl
  | Json.bool a => by simp [beqJson]
  | Json.num a => by simp [beqJson]
  | Json.str a => by simp [beqJson]
  | Json.arr a => by simpa [beqJson] using beqJsonList_refl a
  | Json.obj a => by simpa [beqJson] using beqJsonFields_refl a
termination_by structural a => a

theorem beqJsonList_refl : ∀ a : List Json, beqJsonList a a = true
  | [] => rfl
  | a :: as2 => by simp [beqJsonList, beqJson_refl a, beqJsonList_refl as2]
termination_by structural a => a

theorem beqJsonFields_refl : ∀ a : List (Str × Json), beqJsonFields a a = true
  | [] => rfl
  | (k, v) :: as2 => by simp [beqJsonFields, beqJson_refl v, beqJsonFields_refl as2]
termination_by structural a => a
end

instance : DecidableEq Json := fun a b =>
  decidable_of_iff (beqJson a b = true)
    (Iff.intro (beqJson_eq a b) (fun h => h ▸ beqJson_refl a))

/-- JavaScript truthiness test `!v` (negated) on a JSON value:
`null`, `false`, `0`, and `""` are falsy. -/
def jsonFalsy : Json → Bool
  | Json.null => true
  | Json.bool b => !b
  | Json.num n => n == 0
  | Json.str s => s.isEmpty
  | _ => false

/-- The test `value && typeof value === 'object'`: arrays and objects (null excluded). -/
def isContainer : Json → Bool
  | Json.arr _ => true
  | Json.obj _ => true
  | _ => false

/-- The property name `length` as a character list. -/
def lengthKey : Str := ['l', 'e', 'n', 'g', 't', 'h']

/-- A canonical array index: the string is all digits and round-trips through
its numeric value (JS property access `a["07"]` is not index access). -/
def canonIdx (p : Str) : Option Nat :=
  if isDigits p = true ∧ natToStr (strToNat p) = p then some (strToNat p) else none

/-- First-match lookup in an object's field list (JSON.parse yields unique
keys, so first and last match coincide). -/
def lookupField : List (Str × Json) → Str → Option Json
  | [], _ => none
  | (k, v) :: rest, p => if k = p then some v else lookupField rest p

/-- One JS property access `current[part]` on a (non-null, non-undefined)
JSON value. Strings expose `length` and character indexing; arrays expose
`length` and index access; numbers and booleans have no own properties.
Prototype-inherited methods are not modelled (none is JSON-expressible). -/
def getProp : Json → Str → Option Json
  | Json.null, _ => none
  | Json.bool _, _ => none
  | Json.num _, _ => none
  | Json.str s, p =>
    if p = lengthKey then some (Json.num s.length)
    else
      match canonIdx p with
      | some i => (s.get? i).map (fun c => Json.str [c])
      | none => none
  | Json.arr xs, p =>
    if p = lengthKey then some (Json.num xs.length)
    else
      match canonIdx p with
      | some i => xs.get? i
      | none => none
  | Json.obj fs, p => lookupField fs p

/-- The loop of `getValueAtPath`: per part, return `undefined` (`none`) if the
current value is `undefined` or `null`, else index into it. -/
def walkPath : List Str → Option Json → Option Json
  | [], cur => cur
  | _ :: _, none => none
  | _ :: ps, some Json.null =>
    -- `current === null` short-circuits to undefined with parts remaining
    walkPath ps none
  | p :: ps, some c => walkPath ps (getProp c p)

/-- Models `getValueAtPath(obj, path)` from `App.tsx` (both copies are identical):
empty path returns the object itself, otherwise walk the dot-split parts. -/
def getValueAtPath (obj : Json) (path : Str) : Option Json :=
  if path = [] then some obj else walkPath (splitDot path) (some obj)

/-- The `parent` component of `getParent(obj, path)`: `null` for a dotless
path, otherwise the value at the path with its last segment removed
(`none` models `undefined` when the lookup misses). -/
def getParentObj (root : Json) (path : Str) : Option Json :=
  if '.' ∈ path then getValueAtPath root (joinDot (splitDot path).dropLast)
  else some Json.null

example : getValueAtPath (Json.obj [(['a'], Json.str ['h', 'i'])]) ['a', '.', '0']
    = some (Json.str ['h']) := by decide

/-- The `type` discriminator of a `SearchResult`: `'key' | 'value'`. -/
inductive MatchType where
  | key : MatchType
  | value : MatchType
deriving DecidableEq

/-- The `SearchResult` interface from `App.tsx` (`value` is the matched
text; `parentObj`/`childrenObj` carry `any` values, with `none` for JS
`undefined` and `some Json.null` for JS `null`). -/
structure SearchResult where
  type : MatchType
  path : Str
  value : Str
  parentObj : Option Json
  childrenObj : Option Json
  priority : Nat
deriving DecidableEq

/-- The non-recursive part of the `Object.entries(obj).forEach` callback in
`searchInObject`: an optional key-match, then an optional value-match
(strings only), then `recResults`, the output of the recursion into the
value when it is a container (passed in by the caller so that the mutual
recursion below stays structural). -/
def entryMatches (root : Json) (q : Str) (path : Str) (key : Str) (v : Json)
    (recResults : List SearchResult) : List SearchResult :=
  (if jsIncludes (jsToLower key) q then
    [{ type := MatchType.key, path := jsJoinPath path key, value := key,
       parentObj := getParentObj root (jsJoinPath path key), childrenObj := some v,
       priority := if jsToLower key = q then 5 else 1 }]
  else []) ++
  (match v with
   | Json.str s =>
     if jsIncludes (jsToLower s) q then
       [{ type := MatchType.value, path := jsJoinPath path key, value := s,
          parentObj := getParentObj root (jsJoinPath path key), childrenObj := some Json.null,
          priority := if s = q then 5 else 1 }]
     else []
   | _ => []) ++
  recResults

mutual
/-- Models `searchInObject(obj, path)`: non-objects (and null, which is falsy)
produce nothing; arrays and objects are walked entry by entry.  `root` is the
captured `parsedJson` used by `getParent`, and `q` the lowercased query. -/
def searchJson (root : Json) (q : Str) (v : Json) (path : Str) : List SearchResult :=
  match v with
  | Json.arr xs => searchElems root q path 0 xs
  | Json.obj fs => searchFields root q path fs
  | _ => []
termination_by structural v

/-- An `Object.entries` of an array yields index-string keys `"0"`, `"1"`, … in
order; each entry is processed like an object entry. -/
def searchElems (root : Json) (q : Str) (path : Str) (i : Nat) (xs : List Json) : List SearchResult :=
  match xs with
  | [] => []
  | v :: vs =>
    entryMatches root q path (natToStr i) v
      (if isContainer v then searchJson root q v (jsJoinPath path (natToStr i)) else []) ++
    searchElems root q path (i + 1) vs
termination_by structural xs

/-- An `Object.entries` of an object yields its fields in insertion order. -/
def searchFields (root : Json) (q : Str) (path : Str) (fs : List (Str × Json)) : List SearchResult :=
  match fs with
  | [] => []
  | (k, v) :: rest =>
    entryMatches root q path k v
      (if isContainer v then searchJson root q v (jsJoinPath path k) else []) ++
    searchFields root q path rest
termination_by structural fs
end

/-- Insert into a list sorted by non-increasing priority, after any earlier
element of equal priority (stability). -/
def insertDesc (r : SearchResult) : List SearchResult → List SearchResult
  | [] => [r]
  | x :: xs => if x.priority ≤ r.priority then r :: x :: xs else x :: insertDesc r xs

/-- Models `results.sort((a, b) => b.priority - a.priority)`: a stable sort by
descending priority (ECMAScript `Array.prototype.sort` is stable). -/
def stableSortDesc : List SearchResult → List SearchResult
  | [] => []
  | r :: rs => insertDesc r (stableSortDesc rs)

/-- The search-related component state: `searchResults` and
`currentSearchIndex` (an `Int`, since the source stores `-1` for "none"). -/
structure SearchState where
  results : List SearchResult
  cursor : Int
deriving DecidableEq

/-- The `useEffect([searchQuery, parsedJson])` search recomputation: an empty
trimmed query or a falsy document clears the results and returns early
(leaving the cursor untouched); otherwise results are recomputed, sorted, and
the cursor is reset to `0` or `-1`. -/
def searchEffect (searchQuery : Str) (parsedJson : Json) (st : SearchState) : SearchState :=
  if jsTrim searchQuery = [] ∨ jsonFalsy parsedJson = true then
    { st with results := [] }
  else
    let query := jsToLower searchQuery
    let sorted := stableSortDesc (searchJson parsedJson query parsedJson [])
    { results := sorted, cursor := if sorted.length > 0 then 0 else -1 }

/-- Models `navigateToNextResult`: no-op on an empty list, else advance modulo the
length (`Int.tmod` is the truncating `%` of JavaScript). -/
def navigateToNextResult (st : SearchState) : SearchState :=
  if st.results.length = 0 then st
  else { st with cursor := (st.cursor + 1).tmod (st.results.length : Int) }

/-- Models `navigateToPrevResult`: no-op on an empty list, else step back, wrapping
from any cursor `≤ 0` to the last index. -/
def navigateToPrevResult (st : SearchState) : SearchState :=
  if st.results.length = 0 then st
  else { st with
         cursor := if st.cursor ≤ 0 then (st.results.length : Int) - 1 else st.cursor - 1 }

example :
    searchEffect ['b', 'o', 'b'] (Json.obj [(['n', 'a', 'm', 'e'], Json.str ['B', 'o', 'b'])])
      { results := [], cursor := 0 }
    = { results := [{ type := MatchType.value, path := ['n', 'a', 'm', 'e'],
                      value := ['B', 'o', 'b'], parentObj := some Json.null,
                      childrenObj := some Json.null, priority := 1 }],
        cursor := 0 } := by decide

/-- A JS `Record<string, boolean>` (`expandedSections`, `updates`):
an association list in insertion order with unique keys. -/
abbrev RecordB := List (Str × Bool)

/-- JS property assignment `m[k] = v`: update in place if the key exists,
else append. -/
def recSet : RecordB → Str → Bool → RecordB
  | [], k, v => [(k, v)]
  | (k1, v1) :: rest, k, v =>
    if k1 = k then (k1, v) :: rest else (k1, v1) :: recSet rest k v

/-- JS property read `m[k]` (`none` models `undefined`). -/
def recGet : RecordB → Str → Option Bool
  | [], _ => none
  | (k1, v1) :: rest, k => if k1 = k then some v1 else recGet rest k

/-- Models `Object.keys(m)` in insertion order. -/
def recKeys (m : RecordB) : List Str := m.map Prod.fst

/-- The object spread `{...prev, ...updates}`: existing keys keep their
position and take the updated value, new keys are appended in order. -/
def recMerge (prev updates : RecordB) : RecordB :=
  updates.foldl (fun m kv => recSet m kv.1 kv.2) prev

/-- Models `getNormalizedPattern(path)`: replace every all-digit segment by the
wildcard `*`. -/
def getNormalizedPattern (path : Str) : Str :=
  if path = [] then []
  else joinDot ((splitDot path).map (fun part => if isDigits part then ['*'] else part))

/-- The inner loop of `findSiblingArrayItems`: all non-index segment
positions must match exactly. -/
def nonIndexSegsMatch (parts pParts : List Str) (indexPositions : List Nat) : Bool :=
  (List.range parts.length).all
    (fun i => indexPositions.contains i || pParts.getD i [] == parts.getD i [])

/-- Models `findSiblingArrayItems(path)`: scan the keys already present in
`expandedSections` for paths with the same normalized pattern, the same
number of segments, and identical non-index segments. -/
def findSiblingArrayItems (exp : RecordB) (path : Str) : List Str :=
  if path = [] then []
  else
    let parts := splitDot path
    let indexPositions := (List.range parts.length).filter (fun i => isDigits (parts.getD i []))
    if indexPositions = [] then []
    else
      (recKeys exp).filter (fun p =>
        if p = path then false
        else if getNormalizedPattern p ≠ getNormalizedPattern path then false
        else
          let pParts := splitDot p
          if pParts.length ≠ parts.length then false
          else nonIndexSegsMatch parts pParts indexPositions)

/-- Models `findSimilarStructurePaths(path)`: a thin wrapper (plus logging) around
`findSiblingArrayItems`. -/
def findSimilarStructurePaths (exp : RecordB) (path : Str) : List Str :=
  if path = [] then [] else findSiblingArrayItems exp path

/-- Models `getPathUpToIndex(path, indexPosition)`: the joined segments strictly
before the given position. -/
def getPathUpToIndex (path : Str) (indexPosition : Nat) : Str :=
  joinDot ((splitDot path).take indexPosition)

/-- Models `getPathWithReplacedIndex(path, indexPosition, newIndex)`: rebuild the
path with the segment at `indexPosition` replaced by the new index, using
JS-truthiness checks on the joined prefix and suffix. -/
def getPathWithReplacedIndex (path : Str) (indexPosition : Nat) (newIndex : Nat) : Str :=
  let parts := splitDot path
  let pre := joinDot (parts.take indexPosition)
  let suf := joinDot (parts.drop (indexPosition + 1))
  let idx := natToStr newIndex
  if pre ≠ [] then
    (if suf ≠ [] then pre ++ '.' :: idx ++ '.' :: suf else pre ++ '.' :: idx)
  else
    (if suf ≠ [] then idx ++ '.' :: suf else idx)

/-- Models `findSiblingsInArray(path)`: find the FIRST all-digit segment, resolve
the path up to it, and if that resolves to an array substitute every other
index of that array at that first position. -/
def findSiblingsInArray (root : Json) (path : Str) : List Str :=
  let parts := splitDot path
  match parts.findIdx? (fun part => isDigits part) with
  | none => []
  | some ip =>
    match getValueAtPath root (getPathUpToIndex path ip) with
    | some (Json.arr xs) =>
      let currentIndex := strToNat (parts.getD ip [])
      ((List.range xs.length).filter (fun i => i ≠ currentIndex)).map
        (fun i => getPathWithReplacedIndex path ip i)
    | _ => []

/-- Models `findNestedSiblings(path)`: for every all-digit segment position, call
`findSiblingsInArray` on the path truncated to that position, re-append the
remaining suffix, and deduplicate. -/
def findNestedSiblings (root : Json) (path : Str) : List Str :=
  let parts := splitDot path
  let indexPositions := (List.range parts.length).filter (fun i => isDigits (parts.getD i []))
  if indexPositions = [] then []
  else
    dedup (indexPositions.foldl (fun acc pos =>
      let pathToHere := joinDot (parts.take (pos + 1))
      let siblings := findSiblingsInArray root pathToHere
      if pos < parts.length - 1 then
        let suf := joinDot (parts.drop (pos + 1))
        acc ++ siblings.map (fun s => s ++ '.' :: suf)
      else acc ++ siblings) [])

/-- The loop of `ensureParentPathsExpanded`: accumulate the dotted prefix
(with the JS falsy test on the accumulator) and set each proper prefix
to `true`. -/
def ensureParentsGo : List Str → Str → RecordB → RecordB
  | [], _, u => u
  | part :: rest, cur, u =>
    let cur2 := if cur = [] then part else cur ++ '.' :: part
    ensureParentsGo rest cur2 (recSet u cur2 true)

/-- Models `ensureParentPathsExpanded(path, updates)`: set every strict ancestor
prefix of `path` to `true` in `updates`. -/
def ensureParentPathsExpanded (path : Str) (u : RecordB) : RecordB :=
  ensureParentsGo ((splitDot path).dropLast) [] u

/-- One iteration of the `forEach` over sibling paths in
`toggleSimilarStructures`: `updates[p] = expand`, plus ancestor-forcing when
expanding. -/
def addToggleUpdate (expand : Bool) (u : RecordB) (p : Str) : RecordB :=
  let u2 := recSet u p expand
  if expand then ensureParentPathsExpanded p u2 else u2

/-- The `updates` object built by either branch of
`toggleSimilarStructures`: the current path is included only when
expanding (the source comment: for Close Similar, exclude it), then every
sibling is added. -/
def buildToggleUpdates (expand : Bool) (path : Str) (sibs : List Str) : RecordB :=
  let u0 : RecordB := if expand then ensureParentPathsExpanded path (recSet [] path true) else []
  sibs.foldl (addToggleUpdate expand) u0

/-- Models `toggleSimilarStructures(path, expand)`: direct nested-sibling lookup,
falling back to the pattern search over existing keys; a no-op when both are
empty; otherwise merge the update batch into `expandedSections`. (The two
branches of the source are textually identical apart from the sibling list
used.) -/
def toggleSimilarStructures (root : Json) (exp : RecordB) (path : Str) (expand : Bool) : RecordB :=
  let nested := findNestedSiblings root path
  if nested.length = 0 then
    let similar := findSimilarStructurePaths exp path
    if similar.length = 0 then exp
    else recMerge exp (buildToggleUpdates expand path similar)
  else recMerge exp (buildToggleUpdates expand path nested)

/-- The sibling list that `toggleSimilarStructures` ends up acting on:
nested siblings if any, else the pattern-based fallback. -/
def computedSiblings (root : Json) (exp : RecordB) (path : Str) : List Str :=
  let nested := findNestedSiblings root path
  if nested.length = 0 then findSimilarStructurePaths exp path else nested

example :
    findNestedSiblings
      (Json.obj [(['a'],
        Json.arr [Json.obj [(['b'], Json.arr [Json.num 10, Json.num 20])],
                  Json.obj [(['b'], Json.arr [Json.num 30, Json.num 40])]])])
      ['a', '.', '0', '.', 'b', '.', '1']
    = [['a', '.', '1', '.', 'b', '.', '1']] := by decide

example :
    toggleSimilarStructures
      (Json.obj [(['a'], Json.arr [Json.obj [(['x'], Json.num 1)],
                                   Json.obj [(['x'], Json.num 2)]])])
      [(['a', '.', '0'], true), (['a', '.', '1'], true)]
      ['a', '.', '0'] false
    = [(['a', '.', '0'], true), (['a', '.', '1'], false)] := by decide

/-- The component state relevant to the modelled effects. -/
structure AppState where
  parsedJson : Json
  error : Str
  searchQuery : Str
  search : SearchState
  expandedSections : RecordB
deriving DecidableEq

/-- The message prefix of `setError` in the parse effect:
`"Invalid JSON: "`. -/
def invalidJsonMsg (m : Str) : Str :=
  ['I', 'n', 'v', 'a', 'l', 'i', 'd', ' ', 'J', 'S', 'O', 'N', ':', ' '] ++ m

/-- The `useEffect([jsonInput])` parse effect. `JSON.parse` is an external
collaborator, so its outcome on a non-blank input is a parameter:
`Except.ok v` for a successful parse, `Except.error m` for a thrown
`SyntaxError` with message `m`. -/
def processJsonInput (jsonInput : Str) (parseOutcome : Except Str Json) (st : AppState) : AppState :=
  if jsTrim jsonInput = [] then { st with parsedJson := Json.null, error := [] }
  else
    match parseOutcome with
    | Except.ok v => { st with parsedJson := v, error := [] }
    | Except.error m => { st with parsedJson := Json.null, error := invalidJsonMsg m }

/-- The search `useEffect` reacting to the (possibly new) document, lifted
to the whole state. -/
def applySearchRecompute (st : AppState) : AppState :=
  { st with search := searchEffect st.searchQuery st.parsedJson st.search }

/-- A change of the JSON input text: the parse effect, then the search
effect that reacts to the document change. -/
def onJsonInputChange (jsonInput : Str) (parseOutcome : Except Str Json) (st : AppState) : AppState :=
  applySearchRecompute (processJsonInput jsonInput parseOutcome st)

mutual
/-- The locations visited by the traversals of `App.tsx` (`searchInObject`
and `renderJSON` compute `currentPath` identically): each entry of a
container is reported as the pair of its location — the sequence of entry
keys from the root — and its assigned dotted path string. -/
def pathsJson (v : Json) (loc : List Str) (path : Str) : List (List Str × Str) :=
  match v with
  | Json.arr xs => pathsElems xs 0 loc path
  | Json.obj fs => pathsFields fs loc path
  | _ => []
termination_by structural v

/-- Path assignment for the entries of an array. -/
def pathsElems (xs : List Json) (i : Nat) (loc : List Str) (path : Str) : List (List Str × Str) :=
  match xs with
  | [] => []
  | v :: vs =>
    (loc ++ [natToStr i], jsJoinPath path (natToStr i)) ::
      (if isContainer v then pathsJson v (loc ++ [natToStr i]) (jsJoinPath path (natToStr i)) else []) ++
      pathsElems vs (i + 1) loc path
termination_by structural xs

/-- Path assignment for the fields of an object. -/
def pathsFields (fs : List (Str × Json)) (loc : List Str) (path : Str) : List (List Str × Str) :=
  match fs with
  | [] => []
  | (k, v) :: rest =>
    (loc ++ [k], jsJoinPath path k) ::
      (if isContainer v then pathsJson v (loc ++ [k]) (jsJoinPath path k) else []) ++
      pathsFields rest loc path
termination_by structural fs
end

/-- A segment that keeps the dotted serialization unambiguous: nonempty and
dot-free. -/
def goodSeg (s : Str) : Bool := !s.isEmpty && !s.contains '.'

mutual
/-- Every object key anywhere in the value is a `goodSeg` (array index
strings always are). -/
def keysOk : Json → Bool
  | Json.arr xs => keysOkList xs
  | Json.obj fs => keysOkFields fs
  | _ => true
termination_by structural v => v

/-- The predicate `keysOk` over array elements. -/
def keysOkList : List Json → Bool
  | [] => true
  | v :: vs => keysOk v && keysOkList vs
termination_by structural xs => xs

/-- The predicate `keysOk` over object fields. -/
def keysOkFields : List (Str × Json) → Bool
  | [] => true
  | (k, v) :: fs => goodSeg k && keysOk v && keysOkFields fs
termination_by structural fs => fs
end

example :
    pathsJson (Json.obj [(['a', '.', 'b'], Json.num 1),
                         (['a'], Json.obj [(['b'], Json.num 2)])]) [] []
    = [([['a', '.', 'b']], ['a', '.', 'b']),
       ([['a']], ['a']),
       ([['a'], ['b']], ['a', '.', 'b'])] := by decide

theorem walkPath_nil_none : ∀ ps : List Str, walkPath ps none = none
  | [] => rfl
  | _ :: _ => rfl

theorem walkPath_append (a : List Str) :
    ∀ (b : List Str) (cur : Option Json),
      walkPath (a ++ b) cur = walkPath b (walkPath a cur) := by
  induction a with
  | nil => intro b cur; rfl
  | cons p ps ih =>
    intro b cur
    match cur with
    | none => simp [walkPath, walkPath_nil_none]
    | some Json.null => simp [walkPath, ih, walkPath_nil_none]
    | some (Json.bool x) => simp [walkPath, ih]
    | some (Json.num x) => simp [walkPath, ih]
    | some (Json.str x) => simp [walkPath, ih]
    | some (Json.arr x) => simp [walkPath, ih]
    | some (Json.obj x) => simp [walkPath, ih]

/-- Values on which the walk can make no further progress: `undefined`,
`null`, numbers and booleans (their JS property reads yield `undefined`). -/
def stopValue : Option Json → Bool
  | none => true
  | some Json.null => true
  | some (Json.num _) => true
  | some (Json.bool _) => true
  | _ => false

theorem walkPath_stop : ∀ (ps : List Str) (cur : Option Json),
    stopValue cur = true → ps ≠ [] → walkPath ps cur = none := by
  intro ps cur hstop hne
  match ps, cur with
  | [], _ => exact absurd rfl hne
  | p :: ps, none => rfl
  | p :: ps, some Json.null => simp [walkPath, walkPath_nil_none]
  | p :: ps, some (Json.num n) => simp [walkPath, getProp, walkPath_nil_none]
  | p :: ps, some (Json.bool b) => simp [walkPath, getProp, walkPath_nil_none]
  | p :: ps, some (Json.str s) => simp [stopValue] at hstop
  | p :: ps, some (Json.arr xs) => simp [stopValue] at hstop
  | p :: ps, some (Json.obj fs) => simp [stopValue] at hstop

/-- C7 (corrected): `getValueAtPath` is a total function by construction (it
never throws; absence is `none`), and whenever the value reached after some
prefix of the segments is `undefined`, `null`, a number, or a boolean and
segments remain, the overall result is `undefined`.  (Contrary to the claim,
a *string* intermediate is not in this list: JS string indexing can produce
a character — see the counterexample.) -/
theorem c7_resolve_total (doc : Json) (path : Str) (ps1 ps2 : List Str) :
    (path ≠ [] → getValueAtPath doc path = walkPath (splitDot path) (some doc)) ∧
    (stopValue (walkPath ps1 (some doc)) = true → ps2 ≠ [] →
      walkPath (ps1 ++ ps2) (some doc) = none) := by
  constructor
  · intro h
    simp [getValueAtPath, h]
  · intro hstop hne
    rw [walkPath_append]
    exact walkPath_stop ps2 _ hstop hne

/-- C7 witness: on `{"a": {"b": null}}` the path `a.b.c.d` resolves to
`undefined` because the walk reaches `null` with segments remaining. -/
theorem c7_resolve_total_witness :
    walkPath ([['a'], ['b']] ++ [['c'], ['d']])
      (some (Json.obj [(['a'], Json.obj [(['b'], Json.null)])])) = none :=
  (c7_resolve_total (Json.obj [(['a'], Json.obj [(['b'], Json.null)])])
    ['a'] [['a'], ['b']] [['c'], ['d']]).2 (by decide) (by decide)

/-- C7 counterexample: the claim says resolution returns `undefined`
whenever an intermediate value is not a container, naming strings as such;
but on `{"a": "hi"}` the path `a.0` passes *through* the string `"hi"`
(`getValueAtPath` reports it at prefix `a`) and JS string indexing yields
the defined character `"h"`, not `undefined`. -/
theorem c7_counterexample :
    getValueAtPath (Json.obj [(['a'], Json.str ['h', 'i'])]) ['a'] = some (Json.str ['h', 'i']) ∧
    getValueAtPath (Json.obj [(['a'], Json.str ['h', 'i'])]) ['a', '.', '0']
      = some (Json.str ['h']) ∧
    some (Json.str ['h']) ≠ (none : Option Json) := by
  refine ⟨by decide, by decide, by decide⟩

/-- C3: evaluating the code at the failing input.  For the document
`{"a":[{"b":[10,20]},{"b":[30,40]}]}` and the path `a.0.b.1` (pivot
positions 1 and 3), `findNestedSiblings` returns only `a.1.b.1` — obtained
by substituting at the *first* pivot — and never the inner-pivot candidate
`a.0.b.0` that the claim (substitution at position `i` itself for every
pivot `i`) requires. -/
theorem c3_findNestedSiblings_eval :
    findNestedSiblings
      (Json.obj [(['a'],
        Json.arr [Json.obj [(['b'], Json.arr [Json.num 10, Json.num 20])],
                  Json.obj [(['b'], Json.arr [Json.num 30, Json.num 40])]])])
      ['a', '.', '0', '.', 'b', '.', '1']
    = [['a', '.', '1', '.', 'b', '.', '1']] ∧
    ['a', '.', '0', '.', 'b', '.', '0'] ∉
      findNestedSiblings
        (Json.obj [(['a'],
          Json.arr [Json.obj [(['b'], Json.arr [Json.num 10, Json.num 20])],
                    Json.obj [(['b'], Json.arr [Json.num 30, Json.num 40])]])])
        ['a', '.', '0', '.', 'b', '.', '1'] := by
  refine ⟨by decide, by decide⟩

/-- C5 (corrected): on malformed input (non-blank text whose parse throws),
the Document becomes absent (`null`), a single descriptive message
`"Invalid JSON: …"` is set, and the match list is cleared — but the
`ExpansionMap` (`expandedSections`) is NOT cleared: it is left exactly as it
was (stale entries retained, ignored by the renderer). -/
theorem c5_malformed_input (jsonInput m : Str) (st : AppState)
    (h : jsTrim jsonInput ≠ []) :
    (onJsonInputChange jsonInput (Except.error m) st).parsedJson = Json.null ∧
    (onJsonInputChange jsonInput (Except.error m) st).error = invalidJsonMsg m ∧
    invalidJsonMsg m ≠ [] ∧
    (onJsonInputChange jsonInput (Except.error m) st).search.results = [] ∧
    (onJsonInputChange jsonInput (Except.error m) st).expandedSections = st.expandedSections := by
  refine ⟨?_, ?_, ?_, ?_, ?_⟩ <;>
    simp [onJsonInputChange, processJsonInput, applySearchRecompute, searchEffect,
      jsonFalsy, invalidJsonMsg, h]

/-- C5 witness: malformed input `"not json"` on a state whose expansion map
holds `{"a": true}`. -/
theorem c5_malformed_input_witness :
    (onJsonInputChange ['n', 'o', 't', ' ', 'j', 's', 'o', 'n'] (Except.error ['o', 'o', 'p', 's'])
      { parsedJson := Json.obj [(['a'], Json.num 1)], error := [],
        searchQuery := ['a'],
        search := { results := [], cursor := 0 },
        expandedSections := [(['a'], true)] }).expandedSections = [(['a'], true)] :=
  (c5_malformed_input ['n', 'o', 't', ' ', 'j', 's', 'o', 'n'] ['o', 'o', 'p', 's']
    { parsedJson := Json.obj [(['a'], Json.num 1)], error := [],
      searchQuery := ['a'],
      search := { results := [], cursor := 0 },
      expandedSections := [(['a'], true)] } (by decide)).2.2.2.2

/-- C5 counterexample: the claim says the ExpansionMap is cleared (empty)
on malformed input; running the input effect on a state whose map holds
`{"a": true}` leaves the map equal to `{"a": true}`, which is not empty. -/
theorem c5_counterexample :
    (onJsonInputChange ['n', 'o', 't', ' ', 'j', 's', 'o', 'n'] (Except.error ['o', 'o', 'p', 's'])
      { parsedJson := Json.null, error := [],
        searchQuery := ['x'],
        search := { results := [], cursor := 0 },
        expandedSections := [(['a'], true)] }).expandedSections = [(['a'], true)] ∧
    ([(['a'], true)] : RecordB) ≠ [] := by
  refine ⟨by decide, by decide⟩

theorem tmod_step (c n : Int) (h0 : 0 ≤ c) (hlt : c < n) :
    (c + 1).tmod n = if c + 1 = n then 0 else c + 1 := by
  rw [Int.tmod_eq_emod (by omega) (by omega)]
  by_cases hc : c + 1 = n
  · simp [hc, Int.emod_self]
  · rw [Int.emod_eq_of_lt (by omega) (by omega)]
    simp [hc]

theorem tmod_id (c n : Int) (h0 : 0 ≤ c) (hlt : c < n) : c.tmod n = c := by
  rw [Int.tmod_eq_emod (by omega) (by omega)]
  exact Int.emod_eq_of_lt (by omega) (by omega)

/-- C9 (confirmed): on an empty match list both navigation operations are
no-ops; from any valid cursor, `next` then `previous` (and `previous` then
`next`) returns to the original state, `next` wraps from the last index to
`0`, and `previous` wraps from `0` to the last index. -/
theorem c9_navigation_roundtrip (st : SearchState) :
    (st.results.length = 0 →
      navigateToNextResult st = st ∧ navigateToPrevResult st = st) ∧
    (0 ≤ st.cursor → st.cursor < (st.results.length : Int) →
      navigateToPrevResult (navigateToNextResult st) = st ∧
      navigateToNextResult (navigateToPrevResult st) = st ∧
      (st.cursor = (st.results.length : Int) - 1 → (navigateToNextResult st).cursor = 0) ∧
      (st.cursor = 0 → (navigateToPrevResult st).cursor = (st.results.length : Int) - 1)) := by
  obtain ⟨rs, c⟩ := st
  dsimp only
  constructor
  · intro h
    constructor <;> simp [navigateToNextResult, navigateToPrevResult, h]
  · intro h0 hlt
    have hn : rs.length ≠ 0 := by
      intro h
      rw [h] at hlt
      simp only [Nat.cast_zero] at hlt
      omega
    have hnpos : 0 < (rs.length : Int) := by omega
    refine ⟨?_, ?_, ?_, ?_⟩
    · -- previous after next
      simp only [navigateToNextResult, navigateToPrevResult, hn, if_false]
      rw [tmod_step c _ h0 hlt]
      by_cases hc : c + 1 = (rs.length : Int)
      · rw [if_pos hc]
        have h1 : ((0 : Int) ≤ 0) := le_refl 0
        simp only [SearchState.mk.injEq, true_and]
        rw [if_pos (le_refl 0)]
        omega
      · rw [if_neg hc]
        have h2 : ¬ (c + 1 ≤ 0) := by omega
        simp only [SearchState.mk.injEq, true_and]
        rw [if_neg h2]
        omega
    · -- next after previous
      simp only [navigateToNextResult, navigateToPrevResult, hn, if_false]
      by_cases hc : c ≤ 0
      · rw [if_pos hc]
        simp only [SearchState.mk.injEq, true_and]
        rw [show (rs.length : Int) - 1 + 1 = (rs.length : Int) from by ring]
        rw [Int.tmod_eq_emod (by omega) (by omega), Int.emod_self]
        omega
      · rw [if_neg hc]
        simp only [SearchState.mk.injEq, true_and]
        rw [show c - 1 + 1 = c from by ring]
        exact tmod_id c _ h0 hlt
    · -- next wraps from the last index to 0
      intro hc
      simp only [navigateToNextResult, hn, if_false]
      rw [tmod_step c _ h0 hlt, if_pos (by omega)]
    · -- previous wraps from 0 to the last index
      intro hc
      simp only [navigateToPrevResult, hn, if_false]
      rw [if_pos (by omega)]

/-- C9 witness: with a two-element match list and cursor `1`, `next` then
`previous` restores the state, and with cursor `0`, `previous` wraps to the
last index. -/
theorem c9_navigation_roundtrip_witness :
    navigateToPrevResult (navigateToNextResult
      { results := [{ type := MatchType.key, path := ['a'], value := ['a'],
                      parentObj := some Json.null, childrenObj := some Json.null,
                      priority := 1 },
                    { type := MatchType.key, path := ['b'], value := ['b'],
                      parentObj := some Json.null, childrenObj := some Json.null,
                      priority := 1 }], cursor := 1 })
      = { results := [{ type := MatchType.key, path := ['a'], value := ['a'],
                        parentObj := some Json.null, childrenObj := some Json.null,
                        priority := 1 },
                      { type := MatchType.key, path := ['b'], value := ['b'],
                        parentObj := some Json.null, childrenObj := some Json.null,
                        priority := 1 }], cursor := 1 } :=
  ((c9_navigation_roundtrip
    { results := [{ type := MatchType.key, path := ['a'], value := ['a'],
                    parentObj := some Json.null, childrenObj := some Json.null,
                    priority := 1 },
                  { type := MatchType.key, path := ['b'], value := ['b'],
                    parentObj := some Json.null, childrenObj := some Json.null,
                    priority := 1 }], cursor := 1 }).2 (by decide) (by decide)).1

theorem mem_insertDesc (r a : SearchResult) :
    ∀ l : List SearchResult, (a ∈ insertDesc r l ↔ a = r ∨ a ∈ l)
  | [] => by simp [insertDesc]
  | x :: xs => by
    rw [insertDesc]
    split
    · simp
    · rw [List.mem_cons, mem_insertDesc r a xs, List.mem_cons]
      tauto

theorem mem_stableSortDesc (a : SearchResult) :
    ∀ l : List SearchResult, (a ∈ stableSortDesc l ↔ a ∈ l)
  | [] => Iff.rfl
  | r :: rs => by
    rw [stableSortDesc, mem_insertDesc, mem_stableSortDesc a rs, List.mem_cons]

/-- The invariant satisfied by every emitted `SearchResult`: its matched
text (lowercased) contains the lowercased query, and its priority follows
the source's two rules — keys compare lowercased, values compare verbatim
against the lowercased query. -/
def searchResOk (q : Str) (r : SearchResult) : Prop :=
  jsIncludes (jsToLower r.value) q = true ∧
  r.priority = (match r.type with
    | MatchType.key => if jsToLower r.value = q then 5 else 1
    | MatchType.value => if r.value = q then 5 else 1)

theorem entryMatches_ok (root : Json) (q path key : Str) (v : Json)
    (recs : List SearchResult) (hrec : ∀ r ∈ recs, searchResOk q r) :
    ∀ r ∈ entryMatches root q path key v recs, searchResOk q r := by
  intro r h
  unfold entryMatches at h
  rw [List.mem_append, List.mem_append] at h
  rcases h with (h | h) | h
  · split at h
    · rename_i hg
      rw [List.mem_singleton] at h
      subst h
      exact ⟨hg, rfl⟩
    · simp at h
  · split at h
    · rename_i s
      split at h
      · rename_i hg
        rw [List.mem_singleton] at h
        subst h
        exact ⟨hg, rfl⟩
      · simp at h
    · simp at h
  · exact hrec r h

mutual
theorem searchJson_ok : ∀ (root : Json) (q : Str) (v : Json) (path : Str) (r : SearchResult),
    r ∈ searchJson root q v path → searchResOk q r
  | root, q, Json.arr xs, path, r, h => searchElems_ok root q path 0 xs r (by simpa [searchJson] using h)
  | root, q, Json.obj fs, path, r, h => searchFields_ok root q path fs r (by simpa [searchJson] using h)
  | _, _, Json.null, _, r, h => absurd h (by simp [searchJson])
  | _, _, Json.bool b, _, r, h => absurd h (by simp [searchJson])
  | _, _, Json.num n, _, r, h => absurd h (by simp [searchJson])
  | _, _, Json.str s, _, r, h => absurd h (by simp [searchJson])

theorem searchElems_ok : ∀ (root : Json) (q path : Str) (i : Nat) (xs : List Json) (r : SearchResult),
    r ∈ searchElems root q path i xs → searchResOk q r
  | _, _, _, _, [], r, h => absurd h (by simp [searchElems])
  | root, q, path, i, v :: vs, r, h => by
    rw [searchElems, List.mem_append] at h
    cases h with
    | inl h =>
      have hrec : ∀ r2 ∈ (if isContainer v then
          searchJson root q v (jsJoinPath path (natToStr i)) else []), searchResOk q r2 := by
        intro r2 h2
        split at h2
        · exact searchJson_ok root q v (jsJoinPath path (natToStr i)) r2 h2
        · simp at h2
      exact entryMatches_ok root q path (natToStr i) v _ hrec r h
    | inr h => exact searchElems_ok root q path (i + 1) vs r h

theorem searchFields_ok : ∀ (root : Json) (q path : Str) (fs : List (Str × Json)) (r : SearchResult),
    r ∈ searchFields root q path fs → searchResOk q r
  | _, _, _, [], r, h => absurd h (by simp [searchFields])
  | root, q, path, (k, v) :: rest, r, h => by
    rw [searchFields, List.mem_append] at h
    cases h with
    | inl h =>
      have hrec : ∀ r2 ∈ (if isContainer v then
          searchJson root q v (jsJoinPath path k) else []), searchResOk q r2 := by
        intro r2 h2
        split at h2
        · exact searchJson_ok root q v (jsJoinPath path k) r2 h2
        · simp at h2
      exact entryMatches_ok root q path k v _ hrec r h
    | inr h => exact searchFields_ok root q path rest r h
end

theorem searchEffect_ok (sq : Str) (doc : Json) (st : SearchState) (r : SearchResult)
    (h : r ∈ (searchEffect sq doc st).results) : searchResOk (jsToLower sq) r := by
  unfold searchEffect at h
  split at h
  · simp at h
  · dsimp at h
    rw [mem_stableSortDesc] at h
    exact searchJson_ok doc (jsToLower sq) doc [] r h

/-- C1 (corrected): every emitted match has priority 5 or 1, but the two
kinds use different rules: a key-match has priority 5 iff its key lowercased
equals the lowercased (untrimmed) query, while a value-match has priority 5
iff the value string equals the lowercased query *verbatim*
(`value === query` is case-sensitive) — so a value differing from the query
only in letter case gets priority 1, not 5. -/
theorem c1_priority_rule (sq : Str) (doc : Json) (st : SearchState) (r : SearchResult)
    (h : r ∈ (searchEffect sq doc st).results) :
    (r.type = MatchType.key → (r.priority = 5 ↔ jsToLower r.value = jsToLower sq)) ∧
    (r.type = MatchType.value → (r.priority = 5 ↔ r.value = jsToLower sq)) ∧
    (r.priority = 5 ∨ r.priority = 1) := by
  obtain ⟨hinc, hprio⟩ := searchEffect_ok sq doc st r h
  refine ⟨?_, ?_, ?_⟩
  · intro ht
    rw [ht] at hprio
    simp only at hprio
    by_cases hc : jsToLower r.value = jsToLower sq
    · rw [if_pos hc] at hprio
      simp [hprio, hc]
    · rw [if_neg hc] at hprio
      simp [hprio, hc]
  · intro ht
    rw [ht] at hprio
    simp only at hprio
    by_cases hc : r.value = jsToLower sq
    · rw [if_pos hc] at hprio
      simp [hprio, hc]
    · rw [if_neg hc] at hprio
      simp [hprio, hc]
  · rcases ht : r.type with _ | _ <;> rw [ht] at hprio <;> simp only at hprio <;>
      [skip; skip] <;> split at hprio <;> simp [hprio]

/-- C1 witness: on `{"name": "Bob"}` with query `bob`, the single emitted
value-match has priority `1`, and the theorem's biconditional is discharged
at it. -/
theorem c1_priority_rule_witness :
    (({ type := MatchType.value, path := ['n', 'a', 'm', 'e'], value := ['B', 'o', 'b'],
        parentObj := some Json.null, childrenObj := some Json.null,
        priority := 1 } : SearchResult).priority = 5 ↔
      ({ type := MatchType.value, path := ['n', 'a', 'm', 'e'], value := ['B', 'o', 'b'],
         parentObj := some Json.null, childrenObj := some Json.null,
         priority := 1 } : SearchResult).value = jsToLower ['b', 'o', 'b']) :=
  (c1_priority_rule ['b', 'o', 'b'] (Json.obj [(['n', 'a', 'm', 'e'], Json.str ['B', 'o', 'b'])])
    { results := [], cursor := 0 }
    { type := MatchType.value, path := ['n', 'a', 'm', 'e'], value := ['B', 'o', 'b'],
      parentObj := some Json.null, childrenObj := some Json.null, priority := 1 }
    (by decide)).2.1 rfl

/-- C1 counterexample: on `{"name": "Bob"}` with query `bob` the indexer
emits exactly one match, whose matched text `Bob` lowercased equals the
trimmed query lowercased, yet its priority is `1` — the claim demands `5`. -/
theorem c1_counterexample :
    (searchEffect ['b', 'o', 'b'] (Json.obj [(['n', 'a', 'm', 'e'], Json.str ['B', 'o', 'b'])])
      { results := [], cursor := 0 }).results
      = [{ type := MatchType.value, path := ['n', 'a', 'm', 'e'], value := ['B', 'o', 'b'],
           parentObj := some Json.null, childrenObj := some Json.null, priority := 1 }] ∧
    jsToLower ['B', 'o', 'b'] = jsToLower (jsTrim ['b', 'o', 'b']) ∧
    (1 : Nat) ≠ 5 := by
  refine ⟨by decide, by decide, by decide⟩

/-- C6 (corrected): a query whose *trimmed* form is empty yields an empty
result list, and every emitted match's text lowercased contains the
lowercased **untrimmed** query — the query is lowercased but never trimmed
for matching, so the match set for a query with surrounding whitespace need
not equal the match set of its trimmed form (see the counterexample). -/
theorem c6_query_matching (sq : Str) (doc : Json) (st : SearchState) :
    (jsTrim sq = [] → (searchEffect sq doc st).results = []) ∧
    (∀ r ∈ (searchEffect sq doc st).results,
      jsIncludes (jsToLower r.value) (jsToLower sq) = true) := by
  constructor
  · intro h
    unfold searchEffect
    rw [if_pos (Or.inl h)]
  · intro r h
    exact (searchEffect_ok sq doc st r h).1

/-- C6 witness: a whitespace-only query yields no results on `{"a": "bob"}`,
and the single match for query `bob` contains the query. -/
theorem c6_query_matching_witness :
    (searchEffect [' ', ' '] (Json.obj [(['a'], Json.str ['b', 'o', 'b'])])
      { results := [], cursor := 0 }).results = [] ∧
    jsIncludes (jsToLower (({ type := MatchType.value, path := ['a'], value := ['b', 'o', 'b'],
                               parentObj := some Json.null, childrenObj := some Json.null,
                               priority := 5 } : SearchResult).value)) (jsToLower ['b', 'o', 'b']) = true :=
  ⟨(c6_query_matching [' ', ' '] (Json.obj [(['a'], Json.str ['b', 'o', 'b'])])
      { results := [], cursor := 0 }).1 (by decide),
   (c6_query_matching ['b', 'o', 'b'] (Json.obj [(['a'], Json.str ['b', 'o', 'b'])])
      { results := [], cursor := 0 }).2
     { type := MatchType.value, path := ['a'], value := ['b', 'o', 'b'],
       parentObj := some Json.null, childrenObj := some Json.null, priority := 5 }
     (by decide)⟩

/-- C6 counterexample: on `{"a": "bob"}` the query `" bob"` (with leading
whitespace) produces no matches while its trimmed form `"bob"` produces
one — the claim says the two match sets are equal. -/
theorem c6_counterexample :
    (searchEffect [' ', 'b', 'o', 'b'] (Json.obj [(['a'], Json.str ['b', 'o', 'b'])])
      { results := [], cursor := 0 }).results = [] ∧
    jsTrim [' ', 'b', 'o', 'b'] = ['b', 'o', 'b'] ∧
    (searchEffect ['b', 'o', 'b'] (Json.obj [(['a'], Json.str ['b', 'o', 'b'])])
      { results := [], cursor := 0 }).results ≠ [] := by
  refine ⟨by decide, by decide, by decide⟩

/-- C2 (corrected): the cursor is reset only by a *full* recompute: when the
trimmed query is nonempty and the document truthy, the new cursor is `0` for
a non-empty list and `-1` ("none") for an empty one.  But when the query
becomes empty/whitespace-only or the document is removed, the effect clears
the match list and returns early *without touching the cursor*, which
therefore keeps its previous — possibly stale — value. -/
theorem c2_cursor_reset (sq : Str) (doc : Json) (st : SearchState) :
    ((jsTrim sq = [] ∨ jsonFalsy doc = true) →
      (searchEffect sq doc st).results = [] ∧ (searchEffect sq doc st).cursor = st.cursor) ∧
    (jsTrim sq ≠ [] → jsonFalsy doc = false →
      ((searchEffect sq doc st).results ≠ [] → (searchEffect sq doc st).cursor = 0) ∧
      ((searchEffect sq doc st).results = [] → (searchEffect sq doc st).cursor = -1)) := by
  constructor
  · intro h
    unfold searchEffect
    rw [if_pos h]
    exact ⟨rfl, rfl⟩
  · intro h1 h2
    have hcond : ¬ (jsTrim sq = [] ∨ jsonFalsy doc = true) := by
      simp [h1, h2]
    unfold searchEffect
    rw [if_neg hcond]
    dsimp only
    constructor
    · intro hne
      rw [if_pos (List.length_pos.mpr hne)]
    · intro he
      rw [he]
      simp

/-- C2 witness: a full recompute on `{"a": "x", "b": "x"}` with query `x`
resets the cursor to 0; the early-exit branch keeps the previous cursor. -/
theorem c2_cursor_reset_witness :
    ((searchEffect ['x'] (Json.obj [(['a'], Json.str ['x']), (['b'], Json.str ['x'])])
        { results := [], cursor := 7 }).results ≠ [] →
      (searchEffect ['x'] (Json.obj [(['a'], Json.str ['x']), (['b'], Json.str ['x'])])
        { results := [], cursor := 7 }).cursor = 0) ∧
    ((searchEffect [] (Json.obj [(['a'], Json.str ['x'])])
        { results := [], cursor := 7 }).results = [] ∧
      (searchEffect [] (Json.obj [(['a'], Json.str ['x'])])
        { results := [], cursor := 7 }).cursor = 7) :=
  ⟨((c2_cursor_reset ['x'] (Json.obj [(['a'], Json.str ['x']), (['b'], Json.str ['x'])])
      { results := [], cursor := 7 }).2 (by decide) (by decide)).1,
   (c2_cursor_reset [] (Json.obj [(['a'], Json.str ['x'])])
      { results := [], cursor := 7 }).1 (Or.inl (by decide))⟩

/-- C2 counterexample: search `x` over `{"a":"x","b":"x"}` (two matches,
cursor reset to 0), navigate to the second match (cursor 1), then clear the
query: the recompute empties the match list but leaves the cursor at `1` —
a stale value that is neither "none" (`-1`) nor a valid index into the empty
list, contradicting the claimed reset-on-every-recompute invariant. -/
theorem c2_counterexample :
    (searchEffect []
      (Json.obj [(['a'], Json.str ['x']), (['b'], Json.str ['x'])])
      (navigateToNextResult
        (searchEffect ['x'] (Json.obj [(['a'], Json.str ['x']), (['b'], Json.str ['x'])])
          { results := [], cursor := 0 }))).results = [] ∧
    (searchEffect []
      (Json.obj [(['a'], Json.str ['x']), (['b'], Json.str ['x'])])
      (navigateToNextResult
        (searchEffect ['x'] (Json.obj [(['a'], Json.str ['x']), (['b'], Json.str ['x'])])
          { results := [], cursor := 0 }))).cursor = 1 ∧
    (1 : Int) ≠ -1 := by
  refine ⟨by decide, by decide, by decide⟩

theorem searchElems_mem_key (root : Json) (q path : Str) :
    ∀ (xs : List Json) (j i : Nat), i < xs.length →
      jsIncludes (jsToLower (natToStr (j + i))) q = true →
      ({ type := MatchType.key, path := jsJoinPath path (natToStr (j + i)),
         value := natToStr (j + i),
         parentObj := getParentObj root (jsJoinPath path (natToStr (j + i))),
         childrenObj := some (xs.getD i Json.null),
         priority := if jsToLower (natToStr (j + i)) = q then 5 else 1 } : SearchResult)
        ∈ searchElems root q path j xs
  | [], j, i, hi, _ => absurd hi (by simp)
  | v :: vs, j, 0, hi, hinc => by
    rw [searchElems, List.mem_append]
    left
    unfold entryMatches
    rw [List.mem_append, List.mem_append]
    left; left
    rw [if_pos (by simpa using hinc)]
    simp
  | v :: vs, j, i + 1, hi, hinc => by
    rw [searchElems, List.mem_append]
    right
    have h2 : j + (i + 1) = (j + 1) + i := by omega
    rw [h2] at hinc ⊢
    have := searchElems_mem_key root q path vs (j + 1) i (by simpa using hi) hinc
    simpa using this

/-- C10 (confirmed): the traversal enumerates an array's elements as entries
keyed by their decimal index strings and applies the key-matching rule to
them: whenever the (lowercased) index string of a position `i` contains the
query, a key-match is emitted at that position whose matched text is the
index string itself, with the usual key-priority rule. -/
theorem c10_array_index_keys (root : Json) (q path : Str) (xs : List Json) (i : Nat)
    (h1 : i < xs.length) (h2 : jsIncludes (jsToLower (natToStr i)) q = true) :
    ({ type := MatchType.key, path := jsJoinPath path (natToStr i), value := natToStr i,
       parentObj := getParentObj root (jsJoinPath path (natToStr i)),
       childrenObj := some (xs.getD i Json.null),
       priority := if jsToLower (natToStr i) = q then 5 else 1 } : SearchResult)
      ∈ searchJson root q (Json.arr xs) path := by
  have := searchElems_mem_key root q path xs 0 i h1 (by simpa using h2)
  simpa [searchJson] using this

/-- C10 witness: in the two-element array document `[7, 8]` with query `0`,
a key-match for the index string `0` is emitted at path `0`. -/
theorem c10_array_index_keys_witness :
    ({ type := MatchType.key, path := jsJoinPath [] (natToStr 0), value := natToStr 0,
       parentObj := getParentObj (Json.arr [Json.num 7, Json.num 8]) (jsJoinPath [] (natToStr 0)),
       childrenObj := some ([Json.num 7, Json.num 8].getD 0 Json.null),
       priority := if jsToLower (natToStr 0) = ['0'] then 5 else 1 } : SearchResult)
      ∈ searchJson (Json.arr [Json.num 7, Json.num 8]) ['0'] (Json.arr [Json.num 7, Json.num 8]) [] :=
  c10_array_index_keys (Json.arr [Json.num 7, Json.num 8]) ['0'] []
    [Json.num 7, Json.num 8] 0 (by decide) (by decide)

theorem recGet_recSet_self : ∀ (m : RecordB) (k : Str) (v : Bool),
    recGet (recSet m k v) k = some v
  | [], k, v => by simp [recSet, recGet]
  | (k1, v1) :: rest, k, v => by
    by_cases h : k1 = k
    · simp [recSet, h, recGet]
    · simp [recSet, h, recGet, recGet_recSet_self rest k v]

theorem recGet_recSet_ne : ∀ (m : RecordB) (k k2 : Str) (v : Bool), k2 ≠ k →
    recGet (recSet m k v) k2 = recGet m k2
  | [], k, k2, v, hne => by
    rw [recSet, recGet, recGet, if_neg (fun h : k = k2 => hne h.symm)]
    rfl
  | (k1, v1) :: rest, k, k2, v, hne => by
    rw [recSet]
    by_cases h : k1 = k
    · have hk12 : ¬ k1 = k2 := fun h2 => hne (h2.symm.trans h)
      rw [if_pos h]
      simp only [recGet, if_neg hk12]
    · rw [if_neg h]
      simp only [recGet]
      by_cases h2 : k1 = k2
      · rw [if_pos h2, if_pos h2]
      · rw [if_neg h2, if_neg h2]
        exact recGet_recSet_ne rest k k2 v hne

theorem mem_recSet : ∀ (m : RecordB) (k : Str) (v : Bool) (kv : Str × Bool),
    kv ∈ recSet m k v → kv = (k, v) ∨ kv ∈ m
  | [], k, v, kv, h => Or.inl (by simpa [recSet] using h)
  | (k1, v1) :: rest, k, v, kv, h => by
    by_cases he : k1 = k
    · subst he
      rw [recSet, if_pos rfl, List.mem_cons] at h
      rcases h with h | h
      · exact Or.inl h
      · exact Or.inr (List.mem_cons_of_mem _ h)
    · rw [recSet, if_neg he, List.mem_cons] at h
      rcases h with h | h
      · exact Or.inr (h ▸ List.mem_cons_self _ _)
      · rcases mem_recSet rest k v kv h with h2 | h2
        · exact Or.inl h2
        · exact Or.inr (List.mem_cons_of_mem _ h2)

theorem mem_keys_recSet_self : ∀ (m : RecordB) (k : Str) (v : Bool),
    k ∈ recKeys (recSet m k v)
  | [], k, v => by simp [recSet, recKeys]
  | (k1, v1) :: rest, k, v => by
    by_cases h : k1 = k
    · simp [recSet, h, recKeys]
    · simpa [recSet, h, recKeys] using Or.inr (by
        simpa [recKeys] using mem_keys_recSet_self rest k v)

theorem mem_keys_recSet_mono : ∀ (m : RecordB) (k k2 : Str) (v : Bool),
    k2 ∈ recKeys m → k2 ∈ recKeys (recSet m k v)
  | [], k, k2, v, h => by simp [recKeys] at h
  | (k1, v1) :: rest, k, k2, v, h => by
    rw [recKeys, List.map_cons, List.mem_cons] at h
    by_cases he : k1 = k
    · simpa [recSet, he, recKeys] using (by simpa [he] using h)
    · rcases h with h | h
      · simp [recSet, he, recKeys, h]
      · simpa [recSet, he, recKeys] using
          Or.inr (by simpa [recKeys] using mem_keys_recSet_mono rest k k2 v h)

theorem ensureParentsGo_values : ∀ (l : List Str) (cur : Str) (u : RecordB),
    (∀ kv ∈ u, kv.2 = true) → ∀ kv ∈ ensureParentsGo l cur u, kv.2 = true
  | [], _, _, hu, kv, h => hu kv h
  | _ :: rest, _, u, hu, kv, h => by
    refine ensureParentsGo_values rest _ _ ?_ kv h
    intro kv2 h2
    rcases mem_recSet _ _ _ _ h2 with h3 | h3
    · rw [h3]
    · exact hu kv2 h3

theorem ensureParentsGo_keys_mono : ∀ (l : List Str) (cur : Str) (u : RecordB) (k : Str),
    k ∈ recKeys u → k ∈ recKeys (ensureParentsGo l cur u)
  | [], _, _, _, h => h
  | _ :: rest, _, u, k, h =>
    ensureParentsGo_keys_mono rest _ _ k (mem_keys_recSet_mono u _ k _ h)

theorem addToggleUpdate_keys_mono (expand : Bool) (u : RecordB) (p k : Str)
    (h : k ∈ recKeys u) : k ∈ recKeys (addToggleUpdate expand u p) := by
  unfold addToggleUpdate
  split
  · exact ensureParentsGo_keys_mono _ _ _ k (mem_keys_recSet_mono u p k expand h)
  · exact mem_keys_recSet_mono u p k expand h

theorem addToggleUpdate_keys_self (expand : Bool) (u : RecordB) (p : Str) :
    p ∈ recKeys (addToggleUpdate expand u p) := by
  unfold addToggleUpdate
  split
  · exact ensureParentsGo_keys_mono _ _ _ p (mem_keys_recSet_self u p expand)
  · exact mem_keys_recSet_self u p expand

theorem addToggleUpdate_true_values (u : RecordB) (p : Str)
    (hu : ∀ kv ∈ u, kv.2 = true) : ∀ kv ∈ addToggleUpdate true u p, kv.2 = true := by
  have heq : addToggleUpdate true u p = ensureParentPathsExpanded p (recSet u p true) := rfl
  rw [heq]
  refine ensureParentsGo_values _ _ _ ?_
  intro kv h
  rcases mem_recSet _ _ _ _ h with h2 | h2
  · rw [h2]
  · exact hu kv h2

theorem foldl_addToggleUpdate_keys_mono (expand : Bool) :
    ∀ (sibs : List Str) (u : RecordB) (k : Str),
      k ∈ recKeys u → k ∈ recKeys (sibs.foldl (addToggleUpdate expand) u)
  | [], _, _, h => h
  | s :: rest, u, k, h =>
    foldl_addToggleUpdate_keys_mono expand rest _ k (addToggleUpdate_keys_mono expand u s k h)

theorem foldl_addToggleUpdate_mem_keys (expand : Bool) :
    ∀ (sibs : List Str) (u : RecordB) (s : Str),
      s ∈ sibs → s ∈ recKeys (sibs.foldl (addToggleUpdate expand) u)
  | [], _, s, h => absurd h (List.not_mem_nil s)
  | s2 :: rest, u, s, h => by
    rw [List.mem_cons] at h
    rcases h with h | h
    · subst h
      exact foldl_addToggleUpdate_keys_mono expand rest _ s (addToggleUpdate_keys_self expand u s)
    · exact foldl_addToggleUpdate_mem_keys expand rest _ s h

theorem foldl_addToggleUpdate_true_values :
    ∀ (sibs : List Str) (u : RecordB), (∀ kv ∈ u, kv.2 = true) →
      ∀ kv ∈ sibs.foldl (addToggleUpdate true) u, kv.2 = true
  | [], _, hu, kv, h => hu kv h
  | s :: rest, u, hu, kv, h =>
    foldl_addToggleUpdate_true_values rest _ (addToggleUpdate_true_values u s hu) kv h

theorem foldl_addToggleUpdate_false_mem :
    ∀ (sibs : List Str) (u : RecordB) (kv : Str × Bool),
      kv ∈ sibs.foldl (addToggleUpdate false) u → (kv.1 ∈ sibs ∧ kv.2 = false) ∨ kv ∈ u
  | [], u, kv, h => Or.inr h
  | s :: rest, u, kv, h => by
    rcases foldl_addToggleUpdate_false_mem rest _ kv h with h2 | h2
    · exact Or.inl ⟨List.mem_cons_of_mem _ h2.1, h2.2⟩
    · have heq : addToggleUpdate false u s = recSet u s false := rfl
      rw [heq] at h2
      rcases mem_recSet _ _ _ _ h2 with h3 | h3
      · exact Or.inl ⟨by rw [h3]; exact List.mem_cons_self _ _, by rw [h3]⟩
      · exact Or.inr h3

theorem recGet_recMerge_not_mem : ∀ (us prev : RecordB) (k : Str),
    k ∉ recKeys us → recGet (recMerge prev us) k = recGet prev k
  | [], prev, k, h => rfl
  | (k1, v1) :: rest, prev, k, h => by
    rw [recKeys, List.map_cons, List.mem_cons] at h
    push_neg at h
    have : recMerge prev ((k1, v1) :: rest) = recMerge (recSet prev k1 v1) rest := rfl
    rw [this, recGet_recMerge_not_mem rest _ k h.2,
      recGet_recSet_ne prev k1 k v1 h.1]

theorem recGet_recMerge_all : ∀ (us prev : RecordB) (k : Str) (b : Bool),
    (∀ kv ∈ us, kv.2 = b) → k ∈ recKeys us → recGet (recMerge prev us) k = some b
  | [], prev, k, b, hall, h => by simp [recKeys] at h
  | (k1, v1) :: rest, prev, k, b, hall, h => by
    have hmerge : recMerge prev ((k1, v1) :: rest) = recMerge (recSet prev k1 v1) rest := rfl
    by_cases hk : k ∈ recKeys rest
    · rw [hmerge]
      exact recGet_recMerge_all rest _ k b (fun kv h2 => hall kv (List.mem_cons_of_mem _ h2)) hk
    · rw [recKeys, List.map_cons, List.mem_cons] at h
      rcases h with h | h
      · subst h
        rw [hmerge, recGet_recMerge_not_mem rest _ k hk]
        have hv : v1 = b := hall (k, v1) (List.mem_cons_self _ _)
        rw [recGet_recSet_self prev k v1, hv]
      · exact absurd h hk

theorem toggleSimilarStructures_eq (root : Json) (exp : RecordB) (path : Str) (expand : Bool) :
    toggleSimilarStructures root exp path expand =
      (if (computedSiblings root exp path).length = 0 then exp
       else recMerge exp (buildToggleUpdates expand path (computedSiblings root exp path))) := by
  unfold toggleSimilarStructures computedSiblings
  by_cases hn : (findNestedSiblings root path).length = 0
  · simp only [hn, if_pos rfl, if_true]
  · simp only [hn, if_neg hn, if_false]

/-- C4 (corrected): when the computed sibling set (direct or fallback) is
empty the operation is a no-op; when it is non-empty, every sibling's entry
is set to `expand`, and the toggled path's *own* entry is set only when
`expand` is true (the source excludes the current path from a Close
Similar batch, so collapsing leaves `p`'s own entry — and every other key
outside the sibling set — unchanged). -/
theorem c4_toggle_updates (root : Json) (exp : RecordB) (path : Str) (expand : Bool) :
    (computedSiblings root exp path = [] →
      toggleSimilarStructures root exp path expand = exp) ∧
    (computedSiblings root exp path ≠ [] →
      (∀ s ∈ computedSiblings root exp path,
        recGet (toggleSimilarStructures root exp path expand) s = some expand) ∧
      (expand = true →
        recGet (toggleSimilarStructures root exp path expand) path = some true) ∧
      (expand = false → ∀ k, k ∉ computedSiblings root exp path →
        recGet (toggleSimilarStructures root exp path expand) k = recGet exp k)) := by
  rw [toggleSimilarStructures_eq]
  constructor
  · intro h
    rw [if_pos (by rw [h]; rfl)]
  · intro hne
    rw [if_neg (fun h => hne (List.length_eq_zero.mp h))]
    set sibs := computedSiblings root exp path with hsibs
    have hbase_true : ∀ kv ∈ ensureParentPathsExpanded path (recSet [] path true), kv.2 = true := by
      refine ensureParentsGo_values _ _ _ ?_
      intro kv h
      rcases mem_recSet _ _ _ _ h with h2 | h2
      · rw [h2]
      · exact absurd h2 (List.not_mem_nil kv)
    have hbuildT : buildToggleUpdates true path sibs
        = sibs.foldl (addToggleUpdate true)
            (ensureParentPathsExpanded path (recSet [] path true)) := rfl
    have hbuildF : buildToggleUpdates false path sibs
        = sibs.foldl (addToggleUpdate false) [] := rfl
    refine ⟨?_, ?_, ?_⟩
    · intro s hs
      cases expand with
      | true =>
        refine recGet_recMerge_all _ exp s true ?_ ?_
        · rw [hbuildT]
          exact foldl_addToggleUpdate_true_values _ _ hbase_true
        · rw [hbuildT]
          exact foldl_addToggleUpdate_mem_keys true _ _ s hs
      | false =>
        refine recGet_recMerge_all _ exp s false ?_ ?_
        · rw [hbuildF]
          intro kv h
          rcases foldl_addToggleUpdate_false_mem _ _ kv h with h2 | h2
          · exact h2.2
          · exact absurd h2 (List.not_mem_nil kv)
        · rw [hbuildF]
          exact foldl_addToggleUpdate_mem_keys false _ _ s hs
    · intro hexp
      subst hexp
      refine recGet_recMerge_all _ exp path true ?_ ?_
      · rw [hbuildT]
        exact foldl_addToggleUpdate_true_values _ _ hbase_true
      · rw [hbuildT]
        refine foldl_addToggleUpdate_keys_mono true _ _ path ?_
        exact ensureParentsGo_keys_mono _ _ _ path (mem_keys_recSet_self [] path true)
    · intro hexp k hk
      subst hexp
      refine recGet_recMerge_not_mem _ exp k ?_
      rw [hbuildF]
      intro hmem
      rw [recKeys, List.mem_map] at hmem
      obtain ⟨kv, hkv, hkv2⟩ := hmem
      rcases foldl_addToggleUpdate_false_mem _ _ kv hkv with h2 | h2
      · exact hk (hkv2 ▸ h2.1)
      · exact absurd h2 (List.not_mem_nil kv)

/-- C4 witness: collapsing `a.0` in `{"a":[{"x":1},{"x":2}]}` (sibling set
`[a.1]`, both previously expanded) sets the sibling `a.1` to `false` and
leaves the entry of `a.0` itself unchanged. -/
theorem c4_toggle_updates_witness :
    recGet (toggleSimilarStructures
      (Json.obj [(['a'], Json.arr [Json.obj [(['x'], Json.num 1)],
                                   Json.obj [(['x'], Json.num 2)]])])
      [(['a', '.', '0'], true), (['a', '.', '1'], true)]
      ['a', '.', '0'] false) ['a', '.', '1'] = some false ∧
    recGet (toggleSimilarStructures
      (Json.obj [(['a'], Json.arr [Json.obj [(['x'], Json.num 1)],
                                   Json.obj [(['x'], Json.num 2)]])])
      [(['a', '.', '0'], true), (['a', '.', '1'], true)]
      ['a', '.', '0'] false) ['a', '.', '0']
      = recGet [(['a', '.', '0'], true), (['a', '.', '1'], true)] ['a', '.', '0'] :=
  ⟨((c4_toggle_updates
      (Json.obj [(['a'], Json.arr [Json.obj [(['x'], Json.num 1)],
                                   Json.obj [(['x'], Json.num 2)]])])
      [(['a', '.', '0'], true), (['a', '.', '1'], true)]
      ['a', '.', '0'] false).2 (by decide)).1 ['a', '.', '1'] (by decide),
   ((c4_toggle_updates
      (Json.obj [(['a'], Json.arr [Json.obj [(['x'], Json.num 1)],
                                   Json.obj [(['x'], Json.num 2)]])])
      [(['a', '.', '0'], true), (['a', '.', '1'], true)]
      ['a', '.', '0'] false).2 (by decide)).2.2 rfl ['a', '.', '0'] (by decide)⟩

/-- C4 counterexample: with document `{"a":[{"x":1},{"x":2}]}`, expansion
map `{"a.0": true, "a.1": true}` and a non-empty sibling set, collapsing
similar structures at `a.0` (`expand = false`) leaves the map entry of
`a.0` itself at `true` — the claim says `p`'s own entry is set to the
`expand` value as well. -/
theorem c4_counterexample :
    computedSiblings
      (Json.obj [(['a'], Json.arr [Json.obj [(['x'], Json.num 1)],
                                   Json.obj [(['x'], Json.num 2)]])])
      [(['a', '.', '0'], true), (['a', '.', '1'], true)] ['a', '.', '0'] ≠ [] ∧
    toggleSimilarStructures
      (Json.obj [(['a'], Json.arr [Json.obj [(['x'], Json.num 1)],
                                   Json.obj [(['x'], Json.num 2)]])])
      [(['a', '.', '0'], true), (['a', '.', '1'], true)]
      ['a', '.', '0'] false
      = [(['a', '.', '0'], true), (['a', '.', '1'], false)] ∧
    some true ≠ some false := by
  refine ⟨by decide, by decide, by decide⟩

theorem splitDot_no_dot : ∀ s : Str, '.' ∉ s → splitDot s = [s]
  | [], _ => rfl
  | c :: rest, h => by
    have hc : ¬ c = '.' := fun e => h (e ▸ List.mem_cons_self _ _)
    rw [splitDot, if_neg hc, splitDot_no_dot rest (fun hm => h (List.mem_cons_of_mem _ hm))]

theorem splitDot_append_dot : ∀ x t : Str, '.' ∉ x →
    splitDot (x ++ '.' :: t) = x :: splitDot t
  | [], t, _ => by rw [List.nil_append, splitDot, if_pos rfl]
  | c :: x, t, h => by
    have hc : ¬ c = '.' := fun e => h (e ▸ List.mem_cons_self _ _)
    rw [List.cons_append, splitDot, if_neg hc,
      splitDot_append_dot x t (fun hm => h (List.mem_cons_of_mem _ hm))]

theorem splitDot_joinDot : ∀ l : List Str, l ≠ [] → (∀ p ∈ l, '.' ∉ p) →
    splitDot (joinDot l) = l
  | [], h, _ => absurd rfl h
  | [x], _, h => splitDot_no_dot x (h x (List.mem_singleton_self x))
  | x :: y :: l, _, h => by
    show splitDot (x ++ '.' :: joinDot (y :: l)) = x :: y :: l
    rw [splitDot_append_dot x _ (h x (List.mem_cons_self _ _)),
      splitDot_joinDot (y :: l) (List.cons_ne_nil y l)
        (fun p hp => h p (List.mem_cons_of_mem _ hp))]

theorem joinDot_append_singleton : ∀ (l : List Str) (x : Str), l ≠ [] →
    joinDot (l ++ [x]) = joinDot l ++ '.' :: x
  | [], x, h => absurd rfl h
  | [a], x, _ => rfl
  | a :: b :: rest, x, _ => by
    show a ++ '.' :: joinDot ((b :: rest) ++ [x]) = (a ++ '.' :: joinDot (b :: rest)) ++ '.' :: x
    rw [joinDot_append_singleton (b :: rest) x (List.cons_ne_nil b rest)]
    simp

theorem joinDot_cons_ne_nil (a : Str) (rest : List Str) (ha : a ≠ []) :
    joinDot (a :: rest) ≠ [] := by
  cases rest with
  | nil => simpa [joinDot] using ha
  | cons b r => simp [joinDot]

/-- The predicate `goodSeg` unpacked into propositions. -/
theorem goodSeg_iff (s : Str) : goodSeg s = true ↔ (s ≠ [] ∧ '.' ∉ s) := by
  have hc : s.contains '.' = s.elem '.' := rfl
  simp [goodSeg, hc, List.isEmpty_iff, List.elem_iff]

theorem jsJoinPath_joinDot (loc : List Str) (k : Str)
    (h : ∀ s ∈ loc, goodSeg s = true) :
    jsJoinPath (joinDot loc) k = joinDot (loc ++ [k]) := by
  cases loc with
  | nil => rfl
  | cons a rest =>
    have ha : a ≠ [] := ((goodSeg_iff a).mp (h a (List.mem_cons_self _ _))).1
    rw [jsJoinPath, if_neg (joinDot_cons_ne_nil a rest ha),
      joinDot_append_singleton (a :: rest) k (List.cons_ne_nil a rest)]

theorem digitChar_isDigit : ∀ n : Nat, n < 10 → (digitChar n).isDigit = true := by
  intro n h
  interval_cases n <;> decide

theorem natToStrAux_spec : ∀ fuel n : Nat, n < fuel →
    natToStrAux fuel n ≠ [] ∧ ∀ c ∈ natToStrAux fuel n, c.isDigit = true
  | 0, n, h => absurd h (Nat.not_lt_zero n)
  | fuel + 1, n, h => by
    rw [natToStrAux]
    by_cases h10 : n < 10
    · rw [if_pos h10]
      refine ⟨by simp, ?_⟩
      intro c hc
      rw [List.mem_singleton] at hc
      subst hc
      exact digitChar_isDigit n h10
    · rw [if_neg h10]
      have hlt : n / 10 < fuel := by
        have := Nat.div_lt_self (show 0 < n by omega) (show 1 < 10 by omega)
        omega
      obtain ⟨h1, h2⟩ := natToStrAux_spec fuel (n / 10) hlt
      refine ⟨by simp, ?_⟩
      intro c hc
      rw [List.mem_append] at hc
      rcases hc with hc | hc
      · exact h2 c hc
      · rw [List.mem_singleton] at hc
        subst hc
        exact digitChar_isDigit _ (Nat.mod_lt n (by omega))

theorem natToStr_goodSeg (n : Nat) : goodSeg (natToStr n) = true := by
  obtain ⟨h1, h2⟩ := natToStrAux_spec (n + 1) n (by omega)
  rw [goodSeg_iff]
  refine ⟨h1, ?_⟩
  intro hm
  have := h2 '.' hm
  simp [Char.isDigit] at this

mutual
theorem pathsJson_inv : ∀ (v : Json) (loc : List Str) (path : Str),
    keysOk v = true → (∀ s ∈ loc, goodSeg s = true) → path = joinDot loc →
    ∀ lp ∈ pathsJson v loc path,
      lp.1 ≠ [] ∧ (∀ s ∈ lp.1, goodSeg s = true) ∧ lp.2 = joinDot lp.1
  | Json.arr xs, loc, path, hk, hloc, hpath, lp, h =>
    pathsElems_inv xs 0 loc path (by simpa [keysOk] using hk) hloc hpath lp
      (by simpa [pathsJson] using h)
  | Json.obj fs, loc, path, hk, hloc, hpath, lp, h =>
    pathsFields_inv fs loc path (by simpa [keysOk] using hk) hloc hpath lp
      (by simpa [pathsJson] using h)
  | Json.null, _, _, _, _, _, lp, h => absurd h (by simp [pathsJson])
  | Json.bool b, _, _, _, _, _, lp, h => absurd h (by simp [pathsJson])
  | Json.num n, _, _, _, _, _, lp, h => absurd h (by simp [pathsJson])
  | Json.str s, _, _, _, _, _, lp, h => absurd h (by simp [pathsJson])

theorem pathsElems_inv : ∀ (xs : List Json) (i : Nat) (loc : List Str) (path : Str),
    keysOkList xs = true → (∀ s ∈ loc, goodSeg s = true) → path = joinDot loc →
    ∀ lp ∈ pathsElems xs i loc path,
      lp.1 ≠ [] ∧ (∀ s ∈ lp.1, goodSeg s = true) ∧ lp.2 = joinDot lp.1
  | [], _, _, _, _, _, _, lp, h => absurd h (by simp [pathsElems])
  | v :: vs, i, loc, path, hk, hloc, hpath, lp, h => by
    have hk2 : keysOk v = true ∧ keysOkList vs = true := by
      simpa [keysOkList, Bool.and_eq_true] using hk
    have hgood : ∀ s ∈ loc ++ [natToStr i], goodSeg s = true := by
      intro s hs
      rw [List.mem_append, List.mem_singleton] at hs
      rcases hs with hs | hs
      · exact hloc s hs
      · exact hs ▸ natToStr_goodSeg i
    have hjoin : jsJoinPath path (natToStr i) = joinDot (loc ++ [natToStr i]) := by
      rw [hpath]
      exact jsJoinPath_joinDot loc _ hloc
    rw [pathsElems, List.mem_append, List.mem_cons] at h
    rcases h with (h | h) | h
    · subst h
      exact ⟨by simp, hgood, hjoin⟩
    · split at h
      · exact pathsJson_inv v _ _ hk2.1 hgood hjoin lp h
      · exact absurd h (List.not_mem_nil lp)
    · exact pathsElems_inv vs (i + 1) loc path hk2.2 hloc hpath lp h

theorem pathsFields_inv : ∀ (fs : List (Str × Json)) (loc : List Str) (path : Str),
    keysOkFields fs = true → (∀ s ∈ loc, goodSeg s = true) → path = joinDot loc →
    ∀ lp ∈ pathsFields fs loc path,
      lp.1 ≠ [] ∧ (∀ s ∈ lp.1, goodSeg s = true) ∧ lp.2 = joinDot lp.1
  | [], _, _, _, _, _, lp, h => absurd h (by simp [pathsFields])
  | (k, v) :: fs, loc, path, hk, hloc, hpath, lp, h => by
    have hk2 : goodSeg k = true ∧ keysOk v = true ∧ keysOkFields fs = true := by
      simpa [keysOkFields, Bool.and_eq_true, and_assoc] using hk
    have hgood : ∀ s ∈ loc ++ [k], goodSeg s = true := by
      intro s hs
      rw [List.mem_append, List.mem_singleton] at hs
      rcases hs with hs | hs
      · exact hloc s hs
      · exact hs ▸ hk2.1
    have hjoin : jsJoinPath path k = joinDot (loc ++ [k]) := by
      rw [hpath]
      exact jsJoinPath_joinDot loc _ hloc
    rw [pathsFields, List.mem_append, List.mem_cons] at h
    rcases h with (h | h) | h
    · subst h
      exact ⟨by simp, hgood, hjoin⟩
    · split at h
      · exact pathsJson_inv v _ _ hk2.2.1 hgood hjoin lp h
      · exact absurd h (List.not_mem_nil lp)
    · exact pathsFields_inv fs loc path hk2.2.2 hloc hpath lp h
end

/-- C8 (corrected): provided every object key in the document is nonempty
and dot-free, the dotted path assigned by the traversal determines the
location uniquely — two locations with the same path string are equal.
Without that proviso the serialization is NOT injective (see the
counterexample with a key containing a dot). -/
theorem c8_path_injective (doc : Json) (l1 l2 : List Str) (p1 p2 : Str)
    (hk : keysOk doc = true)
    (h1 : (l1, p1) ∈ pathsJson doc [] [])
    (h2 : (l2, p2) ∈ pathsJson doc [] [])
    (heq : p1 = p2) : l1 = l2 := by
  obtain ⟨hne1, hg1, hp1⟩ := pathsJson_inv doc [] [] hk (by simp) rfl (l1, p1) h1
  obtain ⟨hne2, hg2, hp2⟩ := pathsJson_inv doc [] [] hk (by simp) rfl (l2, p2) h2
  dsimp only at hne1 hg1 hp1 hne2 hg2 hp2
  have e : joinDot l1 = joinDot l2 := by
    rw [← hp1, ← hp2, heq]
  have d1 : ∀ p ∈ l1, '.' ∉ p := fun p hp => ((goodSeg_iff p).mp (hg1 p hp)).2
  have d2 : ∀ p ∈ l2, '.' ∉ p := fun p hp => ((goodSeg_iff p).mp (hg2 p hp)).2
  calc l1 = splitDot (joinDot l1) := (splitDot_joinDot l1 hne1 d1).symm
    _ = splitDot (joinDot l2) := by rw [e]
    _ = l2 := splitDot_joinDot l2 hne2 d2

/-- C8 witness: in `{"a": {"b": 2}}` (all keys nonempty and dot-free) the
location reaching path `a.b` is unique. -/
theorem c8_path_injective_witness : ([['a'], ['b']] : List Str) = [['a'], ['b']] :=
  c8_path_injective (Json.obj [(['a'], Json.obj [(['b'], Json.num 2)])])
    [['a'], ['b']] [['a'], ['b']] ['a', '.', 'b'] ['a', '.', 'b']
    (by decide) (by decide) (by decide) rfl

/-- C8 counterexample: in `{"a.b": 1, "a": {"b": 2}}` the traversal assigns
the same path string `a.b` to two distinct locations — the top-level key
`a.b` and the nested chain `a`, `b` — so the dotted serialization is not
injective within one parse. -/
theorem c8_counterexample :
    ([['a', '.', 'b']], ['a', '.', 'b']) ∈
      pathsJson (Json.obj [(['a', '.', 'b'], Json.num 1),
                           (['a'], Json.obj [(['b'], Json.num 2)])]) [] [] ∧
    ([['a'], ['b']], ['a', '.', 'b']) ∈
      pathsJson (Json.obj [(['a', '.', 'b'], Json.num 1),
                           (['a'], Json.obj [(['b'], Json.num 2)])]) [] [] ∧
    ([['a', '.', 'b']] : List Str) ≠ [['a'], ['b']] := by
  refine ⟨by decide, by decide, by decide⟩
